import Mathlib

/-!
Shallow embedding of the KMC invoice layout engine.

Sources embedded:
* `app/core/currency.py` — `to_decimal`, `round_money`, `round_money_dec`,
  `fmt_money`, `sum_money`.
* `app/pdf/table_layout.py` — `build_invoice_table` (cell matrix, row heights,
  column widths, filler bookkeeping).
* `app/pdf/pdf_draw.py` — `wrap_text`, `_fmt_qty`,
  `build_invoice_table_with_platypus`, `_draw_table_with_platypus` (total
  computation feeding the table), and the pagination loop of
  `build_invoice_pdf`.

Modelling conventions:
* Python `Decimal` values, and the numeric values (ints/floats) that reach the
  engine, are modelled as rationals (`ℚ`).  `to_decimal` converts through
  `Decimal(str(x))`, i.e. the exact decimal value denoted by `str(x)`; a
  numeric input is therefore carried as its exact rational value, and a
  non-numeric input (where `Decimal(str(x))` raises and the `except` branch
  returns `Decimal("0")`) is a separate constructor of `PyVal`.
  `float(...)` round-trips of such decimal quantities are modelled as the
  identity on the rational value.
* `Decimal.quantize(Decimal("0.01"), rounding=ROUND_HALF_EVEN)` is
  round-half-to-even at the second decimal place, embedded by `rhe` below
  (the comparison `2 * r < 1` is the fraction-below-one-half test).
* Python `f"{x:.2f}"` / `f"{x:.3f}"` formatting is embedded as
  round-half-even at the given decimal place followed by digit rendering,
  with the sign taken from the value (CPython renders `-0.00` for tiny
  negative values).
* ReportLab's `pdfmetrics.stringWidth` is additive over the characters of a
  string (sum of per-glyph widths, no kerning); it is modelled by a per-char
  width table `Char → ℕ` (a fixed integer scaling of the real font metrics).
-/

namespace KMC

/-- Round-half-to-even of a rational to an integer: the rounding mode
`ROUND_HALF_EVEN` used by `decimal.Decimal.quantize`.  `f` is the floor and
`r ∈ [0, 1)` the fractional part; `2 * r < 1` means the fraction is below one
half, `1 < 2 * r` above one half, and on a tie the even neighbour is taken. -/
def rhe (x : ℚ) : ℤ :=
  let f : ℤ := ⌊x⌋
  let r : ℚ := x - (f : ℚ)
  if 2 * r < 1 then f
  else if 1 < 2 * r then f + 1
  else if f % 2 = 0 then f else f + 1

/-- Quantization to 2 decimal places with round-half-to-even:
`d.quantize(Decimal("0.01"), rounding=ROUND_HALF_EVEN)`. -/
def quantize2 (x : ℚ) : ℚ := (rhe (100 * x) : ℚ) / 100

/-- A value reaching `to_decimal`: either a numeric value (int/float/Decimal
or a numeric string), carried as the exact decimal value that `str(x)`
denotes, or a non-numeric value on which `Decimal(str(x))` raises. -/
inductive PyVal where
  | num (q : ℚ)
  | invalid (s : String)
deriving DecidableEq, Repr

/-- From `app/core/currency.py`: `to_decimal(x)` returns `Decimal(str(x))`,
or `Decimal("0")` when the conversion raises
(`InvalidOperation`/`ValueError`/`TypeError`). -/
def to_decimal : PyVal → ℚ
  | .num q => q
  | .invalid _ => 0

/-- From `app/core/currency.py`: `round_money(x)` — convert with
`to_decimal`, quantize to 2 decimals with round-half-even, return as `float`
(the float conversion of a 2-decimal value is value-preserving at invoice
magnitudes and is modelled as the identity). -/
def round_money (x : PyVal) : ℚ :=
  let d := to_decimal x
  quantize2 d

/-- From `app/core/currency.py`: `round_money_dec(x)` — the same
quantization, returned as `Decimal`. -/
def round_money_dec (x : PyVal) : ℚ :=
  let d := to_decimal x
  quantize2 d

/-- Digit rendering of a natural number, `0`-padded to two digits
(the fractional part of `f"{x:.2f}"`). -/
def pad2 (k : ℕ) : String := if k < 10 then "0" ++ toString k else toString k

/-- Digit rendering of a natural number, `0`-padded to three digits
(the fractional part of `f"{x:.3f}"`). -/
def pad3 (k : ℕ) : String :=
  if k < 10 then "00" ++ toString k
  else if k < 100 then "0" ++ toString k
  else toString k

/-- Python `f"{x:.2f}"` on an exact decimal value: round-half-even at the
second decimal place, then render with exactly two fractional digits. -/
def fmtFixed2 (x : ℚ) : String :=
  let n := rhe (100 * x)
  let a := n.natAbs
  (if x < 0 then "-" else "") ++ toString (a / 100) ++ "." ++ pad2 (a % 100)

/-- Python `f"{x:.3f}"` on an exact decimal value: round-half-even at the
third decimal place, then render with exactly three fractional digits. -/
def fmtFixed3 (x : ℚ) : String :=
  let n := rhe (1000 * x)
  let a := n.natAbs
  (if x < 0 then "-" else "") ++ toString (a / 1000) ++ "." ++ pad3 (a % 1000)

/-- Strip all trailing copies of `c` from a character list
(Python `str.rstrip(c)`). -/
def rstripChar (c : Char) (s : List Char) : List Char :=
  (s.reverse.dropWhile (fun d => d = c)).reverse

/-- From `app/pdf/pdf_draw.py`: `_fmt_qty(qty)` — format the quantity with
`f"{float(qty):.3f}"`, strip trailing `'0'`s then a trailing `'.'`, and fall
back to `"0"` if nothing remains.  (The `except` branch for non-numeric input
is unreachable here because the argument is already a rational.) -/
def fmt_qty (x : ℚ) : String :=
  let s := (fmtFixed3 x).toList
  let t := rstripChar '.' (rstripChar '0' s)
  if t.isEmpty then "0" else t.asString

/-- Python `str.rjust(width)`: left-pad with spaces to `width` characters. -/
def rjust (width : ℕ) (s : String) : String :=
  if s.length < width then String.mk (List.replicate (width - s.length) ' ') ++ s else s

/-- From `app/core/currency.py`: `fmt_money(x, width=None)` — round to two
decimals (`round_money_dec` on the `Decimal` branch, `round_money` on the
float branch: the same value here), render with `f"{q:.2f}"`, and right-align
to `width` when a positive width is given. -/
def fmt_money (x : PyVal) (width : Option ℕ) : String :=
  let s := fmtFixed2 (round_money_dec x)
  match width with
  | some w => if 0 < w then rjust w s else s
  | none => s

/-- From `app/core/currency.py`: `sum_money(values)` — accumulate
`to_decimal` of each value into a running `Decimal` total, then round once at
the end with `round_money_dec`. -/
def sum_money (values : List PyVal) : ℚ :=
  let total := values.foldl (fun acc v => acc + to_decimal v) 0
  quantize2 total

/-- ReportLab's `mm` unit in points: `72 / 25.4`. -/
def mm : ℚ := 360 / 127

/-- From `app/pdf/table_layout.py`: `COL_W_SL = 12 * mm`. -/
def COL_W_SL : ℚ := 12 * mm

/-- From `app/pdf/table_layout.py`: `COL_W_QTY = 18 * mm`. -/
def COL_W_QTY : ℚ := 18 * mm

/-- From `app/pdf/table_layout.py`: `COL_W_RATE = 24 * mm`. -/
def COL_W_RATE : ℚ := 24 * mm

/-- From `app/pdf/table_layout.py`: `COL_W_AMOUNT = 26 * mm`. -/
def COL_W_AMOUNT : ℚ := 26 * mm

/-- From `app/pdf/table_layout.py`: `BODY_ROW_H = 6 * mm`. -/
def BODY_ROW_H : ℚ := 6 * mm

/-- From `app/pdf/table_layout.py`: `_col_widths(content_width)` — the four
numeric columns are fixed, the description column absorbs the remainder with
a floor of `120.0` points. -/
def col_widths (content_width : ℚ) : List ℚ :=
  let fixed := COL_W_SL + COL_W_QTY + COL_W_RATE + COL_W_AMOUNT
  let desc := max 120 (content_width - fixed)
  [COL_W_SL, desc, COL_W_QTY, COL_W_RATE, COL_W_AMOUNT]

/-- A `lines` entry consumed by `build_invoice_table`: a dict with keys
`sl`, `description`, `qty`, `rate`, `amount`. -/
structure Line where
  sl : String
  description : String
  qty : ℚ
  rate : ℚ
  amount : ℚ
deriving DecidableEq, Repr

/-- The header row of the table: `["Sl.", "Description", "Qty", "Rate", "Amount"]`. -/
def headerRow : List String := ["Sl.", "Description", "Qty", "Rate", "Amount"]

/-- One body row of the table: serial, description, then
`f"{float(row['qty']):.2f}"`, `f"{row['rate']:.2f}"`, `f"{row['amount']:.2f}"`. -/
def itemRow (r : Line) : List String :=
  [r.sl, r.description, fmtFixed2 r.qty, fmtFixed2 r.rate, fmtFixed2 r.amount]

/-- The final combined row: the thank-you message spanning the left columns,
then `"Total:"` and `f"{total:.2f}"`. -/
def thankTotalRow (total : ℚ) : List String :=
  ["Thank you for choosing KMC!", "", "", "Total:", fmtFixed2 total]

/-- The table model produced by `build_invoice_table`: cell matrix, per-row
heights, column widths, the index of the filler row (`filler_i`), and the
`repeatRows` count passed to the `Table` constructor. -/
structure InvoiceTable where
  rows : List (List String)
  rowHeights : List ℚ
  colWidths : List ℚ
  fillerIndex : Option ℕ
  repeatRows : ℕ
deriving DecidableEq, Repr

/-- From `app/pdf/table_layout.py`: `build_invoice_table(lines, total,
content_width, filler_height=0.0)`.  The data matrix is the header row, one
row per line, and the single combined thank-you/total row; `filler_i = None`
(`# No filler row - keep table compact`), every row gets height `BODY_ROW_H`,
and `filler_height` is never read.  The styling commands (grid, fonts,
alignment, the `SPAN` across the left of the combined row) act on this
matrix and are not part of the cell content. -/
def build_invoice_table (lines : List Line) (total : ℚ) (content_width : ℚ)
    (filler_height : ℚ) : InvoiceTable :=
  let data := headerRow :: (lines.map itemRow ++ [thankTotalRow total])
  { rows := data
    rowHeights := List.replicate data.length BODY_ROW_H
    colWidths := col_widths content_width
    fillerIndex := none
    repeatRows := 1 }

/-- An entry of the `items` list given to `build_invoice_pdf`: a dict with
keys `description`, `qty`, `rate`, `amount`; a missing or `None` numeric key
defaults to `0` and a missing description to `""`. -/
structure Item where
  description : String
  qty : ℚ
  rate : ℚ
  amount : ℚ
deriving DecidableEq, Repr

/-- From `app/pdf/pdf_draw.py` (`build_invoice_table_with_platypus`): the
transformation of `items` into `lines`, numbering from 1 with serial strings
`f"{i}."`; `float(...)` on the numeric fields is the identity here. -/
def mkLines : ℕ → List Item → List Line
  | _, [] => []
  | i, it :: rest =>
    ⟨toString i ++ ".", it.description, it.qty, it.rate, it.amount⟩ :: mkLines (i + 1) rest

/-- From `app/pdf/pdf_draw.py`: `build_invoice_table_with_platypus(items,
total, content_width, filler_height=0.0)` — transform the items and delegate
to `build_invoice_table`. -/
def build_invoice_table_with_platypus (items : List Item) (total : ℚ)
    (content_width : ℚ) (filler_height : ℚ) : InvoiceTable :=
  build_invoice_table (mkLines 1 items) total content_width filler_height

/-- One summand of the recomputed total in `_draw_table_with_platypus`:
`item.get("amount", 0) or (to_decimal(item.get("qty", 0) or 0) *
to_decimal(item.get("rate", 0) or 0))` — a zero (or missing) amount is falsy
in Python, so the product `qty * rate` is used in its place. -/
def total_term (it : Item) : ℚ :=
  if it.amount = 0 then it.qty * it.rate else it.amount

/-- From `app/pdf/pdf_draw.py`: the table built by
`_draw_table_with_platypus`.  The summary total is recomputed from the items
with `sum_money`; the caller's `data["total"]` (`callerTotal` here) is never
read.  `filler` stands for the filler height computed from the probe
measurement (`wrapOn`); it only reaches `build_invoice_table`'s ignored
`filler_height` parameter, so the cell contents do not depend on it. -/
def draw_table_with_platypus (items : List Item) (callerTotal : ℚ)
    (content_width : ℚ) (filler : ℚ) : InvoiceTable :=
  let total := sum_money (items.map (fun it => PyVal.num (total_term it)))
  build_invoice_table_with_platypus items total content_width filler

/-- The ellipsis character appended by the truncation rules of `wrap_text`. -/
def ell : Char := '…'

/-- Measured width of a string: `pdfmetrics.stringWidth` is the sum of the
per-glyph widths, here over an integer-scaled width table `wf`. -/
def strW (wf : Char → ℕ) (s : List Char) : ℕ := (s.map wf).sum

/-- Whitespace as seen by `wrap_text`: `"\r"` and `"\n"` are first replaced
by spaces and `str.split()` then splits on any whitespace run. -/
def isWsChar (c : Char) : Bool := c = ' ' || c = '\t' || c = '\n' || c = '\r'

/-- Accumulating splitter behind `toWords`: `cur` holds the (reversed)
current word. -/
def wordsAux : List Char → List Char → List (List Char)
  | cur, [] => if cur.isEmpty then [] else [cur.reverse]
  | cur, c :: rest =>
    if isWsChar c then
      if cur.isEmpty then wordsAux [] rest else cur.reverse :: wordsAux [] rest
    else wordsAux (c :: cur) rest

/-- The word list of `wrap_text`: replace `"\r"`/`"\n"` by spaces, collapse
whitespace with `" ".join(s.split())`, and split the result on single spaces
— equivalently, the maximal whitespace-free runs of the input, in order. -/
def toWords (s : List Char) : List (List Char) := wordsAux [] s

/-- Single spaces between words: `" ".join(words)` (the collapsed text). -/
def joinSp : List (List Char) → List Char
  | [] => []
  | [w] => w
  | w :: ws => w ++ ' ' :: joinSp ws

/-- The single-long-word truncation loop of `fit_line`, on the reversed
word: `while cut and width(cut + "…") > max: cut = cut[:-1]` drops the last
character, i.e. the head of the reversal, until the remainder plus ellipsis
fits or nothing is left. -/
def cutRev (wf : Char → ℕ) (maxW : ℕ) : List Char → List Char
  | [] => []
  | c :: rest =>
    if strW wf ((c :: rest).reverse ++ [ell]) ≤ maxW then c :: rest
    else cutRev wf maxW rest

/-- The truncated leading part of a word too wide for `maxW`
(the `cut` left by the loop above). -/
def cutWord (wf : Char → ℕ) (maxW : ℕ) (cs : List Char) : List Char :=
  (cutRev wf maxW cs.reverse).reverse

/-- From `app/pdf/pdf_draw.py` (`wrap_text.fit_line`): greedily pack words
into one line.  Returns the line and the remaining words.  A first word
already wider than `maxW` is truncated with an ellipsis (`(cut + "…") if cut
else "…"`, which equals `cutWord … ++ [ell]` in both cases) and consumes
itself; otherwise a word is added while the joined trial string still fits. -/
def fitLine (wf : Char → ℕ) (maxW : ℕ) : List (List Char) → List (List Char) →
    List Char × List (List Char)
  | acc, [] => (joinSp acc, [])
  | acc, x :: rest =>
    if acc.isEmpty ∧ maxW < strW wf x then (cutWord wf maxW x ++ [ell], rest)
    else if strW wf (joinSp (acc ++ [x])) ≤ maxW then fitLine wf maxW (acc ++ [x]) rest
    else (joinSp acc, x :: rest)

/-- One step of the second-line hard trim:
`t = t[:-2] + "…" if t.endswith(" …") else t[:-1]`. -/
def stepTrim (t : List Char) : List Char :=
  match t.reverse with
  | e :: s :: rest => if e = ell ∧ s = ' ' then rest.reverse ++ [ell] else (s :: rest).reverse
  | _ => t.dropLast

/-- The hard-trim loop: `while t and width(t) > max_width: t = …`.  Each
step removes one character, so the remaining length bounds the iteration
count (the fuel). -/
def trimLoop (wf : Char → ℕ) (maxW : ℕ) : ℕ → List Char → List Char
  | 0, t => t
  | fuel + 1, t =>
    if t.isEmpty then t
    else if strW wf t ≤ maxW then t
    else trimLoop wf maxW fuel (stepTrim t)

/-- The hard trim applied to the overflowing second line. -/
def hardTrim (wf : Char → ℕ) (maxW : ℕ) (t : List Char) : List Char :=
  trimLoop wf maxW t.length t

/-- From `app/pdf/pdf_draw.py`: `wrap_text(c, text, max_width, font_name,
font_size)` (the canvas argument is unused; the font pair is absorbed into
the width table `wf`).  Collapse whitespace; empty result gives `[""]`; pack
a first line, then a second; if words still remain, append `" …"` to the
second line (`(line2 + " …").strip()`, which is just `"…"` when the line is
empty) and hard-trim it, falling back to `"…"` when the trim consumed
everything. -/
def wrap_text (wf : Char → ℕ) (maxW : ℕ) (text : List Char) : List (List Char) :=
  let words := toWords text
  if words.isEmpty then [[]]
  else
    match fitLine wf maxW [] words with
    | (line1, []) => [line1]
    | (line1, r :: rs) =>
      match fitLine wf maxW [] (r :: rs) with
      | (line2, []) => [line1, line2]
      | (line2, _ :: _) =>
        let t0 := if line2.isEmpty then [ell] else line2 ++ [' ', ell]
        let t := hardTrim wf maxW t0
        [line1, if t.isEmpty then [ell] else t]

/-- The `while start_index < len(items)` loop of `build_invoice_pdf`, as the
list of items drawn on each emitted page.  Each iteration draws
`items[start_index:]` in one table (`drawn = len(items[start_index:])`, `#
All remaining items are drawn at once`) and advances `start_index` by
`drawn`; `c.showPage()` runs only when items remain afterwards.  The fuel is
the remaining item count: `drawn ≥ 1` on every iteration, so the loop
performs at most that many iterations. -/
def render_loop : ℕ → List Item → List (List Item)
  | _, [] => []
  | 0, _ :: _ => []
  | fuel + 1, remaining =>
    let drawn := remaining.length
    remaining.take drawn :: render_loop fuel (remaining.drop drawn)

/-- From `app/pdf/pdf_draw.py`: `build_invoice_pdf`, reduced to the item
distribution over physical pages.  The canvas always flushes at least one
page on `c.save()`, so an empty item list still yields one (table-free)
page. -/
def build_invoice_pdf : List Item → List (List Item)
  | [] => [[]]
  | items => render_loop items.length items

end KMC

namespace KMC

theorem rhe_intCast (n : ℤ) : rhe (n : ℚ) = n := by
  simp [rhe]

theorem quantize2_idem (x : ℚ) : quantize2 (quantize2 x) = quantize2 x := by
  unfold quantize2
  have h : (100 : ℚ) * ((rhe (100 * x) : ℚ) / 100) = (rhe (100 * x) : ℚ) := by ring
  rw [h, rhe_intCast]

theorem foldl_add_to_decimal (l : List PyVal) :
    ∀ c : ℚ, l.foldl (fun acc v => acc + to_decimal v) c = c + (l.map to_decimal).sum := by
  induction l with
  | nil => intro c; simp
  | cons v vs ih => intro c; simp [ih, add_assoc]

theorem sum_money_eq (l : List PyVal) :
    sum_money l = quantize2 ((l.map to_decimal).sum) := by
  simp [sum_money, foldl_add_to_decimal]

theorem rows_getLast (lines : List Line) (total cw fh : ℚ) :
    (build_invoice_table lines total cw fh).rows.getLast? = some (thankTotalRow total) := by
  show (headerRow :: (lines.map itemRow ++ [thankTotalRow total])).getLast? = _
  rw [show headerRow :: (lines.map itemRow ++ [thankTotalRow total]) =
    (headerRow :: lines.map itemRow) ++ [thankTotalRow total] from rfl]
  exact List.getLast?_concat _

/-- C1 (counterexample to the claim as stated): for an item whose `amount`
is zero but whose `qty * rate` is not, the total row displays the rounded
sum of the `qty * rate` fallbacks (`"6.00"`), not the rounded sum of the
item amounts (`"0.00"`), because `item.get("amount", 0) or (qty * rate)`
treats a zero amount as falsy. -/
theorem total_row_not_sum_of_amounts :
    (draw_table_with_platypus [⟨"x", 2, 3, 0⟩] 0 500 0).rows.getLast? =
      some ["Thank you for choosing KMC!", "", "", "Total:", "6.00"] ∧
    fmtFixed2 (quantize2 ((([⟨"x", 2, 3, 0⟩] : List Item).map Item.amount).sum)) = "0.00" ∧
    ("6.00" : String) ≠ "0.00" := by
  refine ⟨?_, ?_, by decide⟩
  · have h : sum_money (([⟨"x", 2, 3, 0⟩] : List Item).map
        (fun it => PyVal.num (total_term it))) = 6 := by
      norm_num [sum_money, to_decimal, total_term, quantize2, rhe]
    have h2 : fmtFixed2 (6 : ℚ) = "6.00" := by norm_num [fmtFixed2, rhe]; rfl
    simp only [draw_table_with_platypus, build_invoice_table_with_platypus, h,
      rows_getLast, thankTotalRow, h2]
  · have h0 : (([⟨"x", 2, 3, 0⟩] : List Item).map Item.amount).sum = 0 := by simp
    rw [h0]
    norm_num [quantize2, rhe, fmtFixed2]
    rfl

/-- C1 (amended): for EVERY item list and every caller-supplied total, the
amount displayed in the table's total row is recomputed by the engine as the
rounded (`round-half-to-even`, 2 decimals) sum of the per-item terms
`amount or qty * rate` (`total_term`) — the caller-supplied total is never
consulted, since the conclusion holds for every `callerTotal`.  When every
item's amount is nonzero this is exactly the rounded sum of the item
amounts, as the claim states. -/
theorem total_row_recomputed (items : List Item) (callerTotal cw fh : ℚ) :
    ((draw_table_with_platypus items callerTotal cw fh).rows.getLast? =
      some (thankTotalRow (quantize2 ((items.map total_term).sum)))) ∧
    ((∀ it ∈ items, it.amount ≠ 0) →
      (draw_table_with_platypus items callerTotal cw fh).rows.getLast? =
        some (thankTotalRow (quantize2 ((items.map Item.amount).sum)))) := by
  have hgen : sum_money (items.map (fun it => PyVal.num (total_term it))) =
      quantize2 ((items.map total_term).sum) := by
    rw [sum_money_eq, List.map_map]
    rfl
  constructor
  · simp only [draw_table_with_platypus, build_invoice_table_with_platypus, hgen, rows_getLast]
  · intro h
    have hmap : items.map total_term = items.map Item.amount := by
      refine List.map_congr_left fun it hit => ?_
      simp [total_term, h it hit]
    simp only [draw_table_with_platypus, build_invoice_table_with_platypus, hgen, hmap,
      rows_getLast]

/-- C1 witness: a concrete render call with a zero-amount item (so the
`qty * rate` fallback fires) and a disagreeing caller-supplied total `999`:
the total row shows the recomputed rounded sum of the `total_term`s; and a
call with three nonzero-amount items, where the same row is the rounded sum
of the amounts. -/
theorem total_row_recomputed_witness :
    ((draw_table_with_platypus [⟨"x", 2, 3, 0⟩] 999 500 0).rows.getLast? =
      some (thankTotalRow (quantize2 ((([⟨"x", 2, 3, 0⟩] : List Item).map total_term).sum)))) ∧
    (∀ it ∈ ([⟨"Item A", 2, 150, 300⟩, ⟨"Item B", 1, 50, 50⟩,
        ⟨"Item C", 3, 20, 60⟩] : List Item), it.amount ≠ 0) ∧
    (draw_table_with_platypus [⟨"Item A", 2, 150, 300⟩, ⟨"Item B", 1, 50, 50⟩,
        ⟨"Item C", 3, 20, 60⟩] 999 500 0).rows.getLast? =
      some (thankTotalRow (quantize2 ((([⟨"Item A", 2, 150, 300⟩, ⟨"Item B", 1, 50, 50⟩,
        ⟨"Item C", 3, 20, 60⟩] : List Item).map Item.amount).sum))) :=
  ⟨(total_row_recomputed [⟨"x", 2, 3, 0⟩] 999 500 0).1, by simp,
    (total_row_recomputed _ 999 500 0).2 (by simp)⟩

/-- C2: evaluating the pagination loop of `build_invoice_pdf` on 40 short
items: `drawn = len(items[start_index:])` draws every remaining item at once,
so the loop never reaches `c.showPage()` and the whole list lands on a single
page (the items do appear exactly once, in order, on that page, and the
summary row is inside its single table) — the document never has the 2+
pages the claim requires. -/
theorem forty_items_render_on_one_page :
    build_invoice_pdf (List.replicate 40 ⟨"Item", 1, 1, 1⟩) =
      [List.replicate 40 ⟨"Item", 1, 1, 1⟩] ∧
    (build_invoice_pdf (List.replicate 40 ⟨"Item", 1, 1, 1⟩)).length = 1 ∧
    (build_invoice_pdf (List.replicate 40 ⟨"Item", 1, 1, 1⟩)).flatten =
      List.replicate 40 ⟨"Item", 1, 1, 1⟩ ∧
    ¬ 2 ≤ (build_invoice_pdf (List.replicate 40 ⟨"Item", 1, 1, 1⟩)).length := by
  refine ⟨rfl, rfl, ?_, by decide⟩
  show List.replicate 40 (⟨"Item", 1, 1, 1⟩ : Item) ++ ([].flatten) = _
  simp

/-- C5 (counterexample to the claim as stated): a call with
`filler_height = 1 > 0` produces only a header row and a single combined
closing-message/total row (here on an empty item list: 2 rows, not the 4 the
claimed row set requires), `filler_i` is `None`, and the closing message and
the total share one row. -/
theorem table_has_no_filler_row :
    (build_invoice_table [] 0 500 1).rows = [headerRow, thankTotalRow 0] ∧
    (build_invoice_table [] 0 500 1).rows.length = 2 ∧
    (build_invoice_table [] 0 500 1).fillerIndex = none ∧
    (build_invoice_table [] 0 500 1).rows.getLast? =
      some ["Thank you for choosing KMC!", "", "", "Total:", "0.00"] ∧
    ¬ (build_invoice_table [] 0 500 1).rows.length = 4 := by
  have h0 : fmtFixed2 (0 : ℚ) = "0.00" := by norm_num [fmtFixed2, rhe]; rfl
  refine ⟨rfl, rfl, rfl, ?_, by decide⟩
  rw [rows_getLast, thankTotalRow, h0]

/-- C5 (amended): for every call, the produced table's rows are, in order:
a header row, one row per item, and a single combined row carrying both the
closing message (spanning the left columns) and the total; no filler row is
produced (`filler_i = None`) and the `filler_height` argument is ignored
(two calls differing only in it build the same table). -/
theorem table_row_structure (lines : List Line) (total cw fh fh' : ℚ) :
    (build_invoice_table lines total cw fh).rows =
      headerRow :: (lines.map itemRow ++ [thankTotalRow total]) ∧
    (build_invoice_table lines total cw fh).fillerIndex = none ∧
    build_invoice_table lines total cw fh = build_invoice_table lines total cw fh' :=
  ⟨rfl, rfl, rfl⟩

/-- C6 (counterexample to the claim as stated): the quantity cell is
produced by `f"{float(row['qty']):.2f}"`, not by the quantity formatter:
for quantity `2` the built table shows `"2.00"`, while `_fmt_qty` (the
Money/Quantity Formatter's trailing-zero-stripping rendering) gives `"2"`. -/
theorem qty_cell_not_formatter :
    (build_invoice_table [⟨"1.", "Widget", 2, 150, 300⟩] 300 500 0).rows[1]? =
      some ["1.", "Widget", "2.00", "150.00", "300.00"] ∧
    fmt_qty 2 = "2" ∧
    ("2.00" : String) ≠ "2" := by
  refine ⟨?_, ?_, by decide⟩
  · have h2 : fmtFixed2 (2 : ℚ) = "2.00" := by norm_num [fmtFixed2, rhe]; rfl
    have h150 : fmtFixed2 (150 : ℚ) = "150.00" := by norm_num [fmtFixed2, rhe]; rfl
    have h300 : fmtFixed2 (300 : ℚ) = "300.00" := by norm_num [fmtFixed2, rhe]; rfl
    show some (itemRow ⟨"1.", "Widget", 2, 150, 300⟩) = _
    rw [itemRow, h2, h150, h300]
  · norm_num [fmt_qty, fmtFixed3, rhe, rstripChar]; decide

/-- C6 (amended): every item row of the built table renders its quantity,
rate and amount cells with ad hoc fixed two-decimal formatting
(`f"{…:.2f}"`), so quantity `2` displays as `"2.00"` rather than the
formatter's `"2"`; rate and amount get exactly two decimal digits. -/
theorem item_row_cells (lines : List Line) (total cw fh : ℚ) (i : ℕ) (r : Line)
    (h : lines[i]? = some r) :
    (build_invoice_table lines total cw fh).rows[i + 1]? =
      some [r.sl, r.description, fmtFixed2 r.qty, fmtFixed2 r.rate, fmtFixed2 r.amount] := by
  have hi : i < lines.length := by
    rcases List.getElem?_eq_some_iff.mp h with ⟨hlt, _⟩
    exact hlt
  show (headerRow :: (lines.map itemRow ++ [thankTotalRow total]))[i + 1]? = _
  rw [List.getElem?_cons_succ, List.getElem?_append_left (by simpa using hi),
    List.getElem?_map, h]
  rfl

/-- C6 witness: the amended cell description instantiated at a concrete
one-line table. -/
theorem item_row_cells_witness :
    (([⟨"1.", "Widget", 2, 150, 300⟩] : List Line))[0]? =
      some ⟨"1.", "Widget", 2, 150, 300⟩ ∧
    (build_invoice_table [⟨"1.", "Widget", 2, 150, 300⟩] 300 500 0).rows[0 + 1]? =
      some ["1.", "Widget", fmtFixed2 2, fmtFixed2 150, fmtFixed2 300] :=
  ⟨rfl, item_row_cells _ 300 500 0 0 _ rfl⟩

theorem strW_append (wf : Char → ℕ) (a b : List Char) :
    strW wf (a ++ b) = strW wf a + strW wf b := by
  simp [strW]

theorem joinSp_cons_ne (w : List Char) (ws : List (List Char)) (h : ws ≠ []) :
    joinSp (w :: ws) = w ++ ' ' :: joinSp ws := by
  cases ws with
  | nil => exact absurd rfl h
  | cons a as => rfl

theorem joinSp_append_cons (wf : Char → ℕ) (acc : List (List Char)) (x : List Char)
    (rest : List (List Char)) (h : rest ≠ []) :
    joinSp (acc ++ x :: rest) = joinSp (acc ++ [x]) ++ ' ' :: joinSp rest := by
  induction acc with
  | nil =>
    simp only [List.nil_append]
    exact joinSp_cons_ne x rest h
  | cons a as ih =>
    have h1 : as ++ x :: rest ≠ [] := by simp
    have h2 : as ++ [x] ≠ [] := by simp
    simp only [List.cons_append, joinSp_cons_ne _ _ h1, joinSp_cons_ne _ _ h2, ih,
      List.append_assoc, List.cons_append]

theorem strW_joinSp_le (wf : Char → ℕ) (acc : List (List Char)) (x : List Char)
    (rest : List (List Char)) :
    strW wf (joinSp (acc ++ [x])) ≤ strW wf (joinSp (acc ++ x :: rest)) := by
  cases rest with
  | nil => exact le_refl _
  | cons r rs =>
    rw [joinSp_append_cons wf acc x (r :: rs) (by simp), strW_append]
    exact Nat.le_add_right _ _

theorem strW_head_le (wf : Char → ℕ) (x : List Char) (rest : List (List Char)) :
    strW wf x ≤ strW wf (joinSp (x :: rest)) := by
  cases rest with
  | nil => exact le_refl _
  | cons r rs =>
    rw [joinSp_cons_ne x (r :: rs) (by simp), strW_append]
    exact Nat.le_add_right _ _

theorem fitLine_fits (wf : Char → ℕ) (maxW : ℕ) :
    ∀ (ws acc : List (List Char)), strW wf (joinSp (acc ++ ws)) ≤ maxW →
      fitLine wf maxW acc ws = (joinSp (acc ++ ws), []) := by
  intro ws
  induction ws with
  | nil => intro acc h; simp [fitLine]
  | cons x rest ih =>
    intro acc h
    have hx : strW wf (joinSp (acc ++ [x])) ≤ maxW :=
      le_trans (strW_joinSp_le wf acc x rest) h
    have hcond : ¬(acc.isEmpty = true ∧ maxW < strW wf x) := by
      rintro ⟨hacc, hlt⟩
      have hacc' : acc = [] := List.isEmpty_iff.mp hacc
      subst hacc'
      have hle : strW wf x ≤ strW wf (joinSp (x :: rest)) := strW_head_le wf x rest
      simp only [List.nil_append] at h
      omega
    rw [fitLine, if_neg hcond, if_pos hx,
      ih (acc ++ [x]) (by rwa [List.append_assoc, List.singleton_append]),
      List.append_assoc, List.singleton_append]

theorem wordsAux_no_ws :
    ∀ (w : List Char), (∀ c ∈ w, isWsChar c = false) →
      ∀ cur : List Char, ¬(cur = [] ∧ w = []) →
        wordsAux cur w = [cur.reverse ++ w] := by
  intro w
  induction w with
  | nil =>
    intro _ cur hc
    have : cur ≠ [] := fun h => hc ⟨h, rfl⟩
    simp [wordsAux, this]
  | cons c cs ih =>
    intro hws cur _
    have hc : isWsChar c = false := hws c (List.mem_cons_self c cs)
    have ihc := ih (fun d hd => hws d (List.mem_cons_of_mem c hd)) (c :: cur) (by simp)
    simp [wordsAux, hc, ihc]

theorem toWords_single (w : List Char) (hne : w ≠ [])
    (hws : ∀ c ∈ w, isWsChar c = false) : toWords w = [w] := by
  simpa using wordsAux_no_ws w hws [] (by simp [hne])

theorem cutRev_eq_drop (wf : Char → ℕ) (maxW : ℕ) :
    ∀ l : List Char, ∃ k, cutRev wf maxW l = l.drop k := by
  intro l
  induction l with
  | nil => exact ⟨0, rfl⟩
  | cons c rest ih =>
    by_cases h : strW wf ((c :: rest).reverse ++ [ell]) ≤ maxW
    · exact ⟨0, by rw [cutRev, if_pos h]; rfl⟩
    · rcases ih with ⟨k, hk⟩
      exact ⟨k + 1, by rw [cutRev, if_neg h, hk]; rfl⟩

theorem cutWord_take (wf : Char → ℕ) (maxW : ℕ) (w : List Char) :
    ∃ m, cutWord wf maxW w = w.take m := by
  rcases cutRev_eq_drop wf maxW w.reverse with ⟨k, hk⟩
  refine ⟨w.length - k, ?_⟩
  rw [cutWord, hk, List.drop_reverse, List.reverse_reverse]

theorem cutWord_length_lt (wf : Char → ℕ) (maxW : ℕ) (w : List Char) (hne : w ≠ [])
    (hwide : maxW < strW wf w) : (cutWord wf maxW w).length < w.length := by
  have hrev : w.reverse ≠ [] := by simpa using hne
  rcases List.exists_cons_of_ne_nil hrev with ⟨c, rest, hcr⟩
  have hfirst : ¬ strW wf ((c :: rest).reverse ++ [ell]) ≤ maxW := by
    have : (c :: rest).reverse = w := by rw [← hcr, List.reverse_reverse]
    rw [this, strW_append]
    omega
  have hstep : cutRev wf maxW (c :: rest) = cutRev wf maxW rest := by
    rw [cutRev, if_neg hfirst]
  rcases cutRev_eq_drop wf maxW rest with ⟨k, hk⟩
  have hlen : (cutRev wf maxW w.reverse).length ≤ rest.length := by
    rw [hcr, hstep, hk, List.length_drop]
    exact Nat.sub_le _ _
  have hwlen : w.length = rest.length + 1 := by
    have h2 := congrArg List.length hcr
    simp only [List.length_reverse, List.length_cons] at h2
    omega
  rw [cutWord, List.length_reverse]
  omega

/-- C7 (counterexample to the claim as stated): an input containing a double
space measures within `maxWidthPx` yet is NOT returned unchanged — the
whitespace is collapsed first. -/
theorem wrap_not_unchanged :
    strW (fun _ => 1) ['a', ' ', ' ', 'b'] ≤ 10 ∧
    wrap_text (fun _ => 1) 10 ['a', ' ', ' ', 'b'] = [['a', ' ', 'b']] ∧
    wrap_text (fun _ => 1) 10 ['a', ' ', ' ', 'b'] ≠ [['a', ' ', ' ', 'b']] := by
  refine ⟨by decide, by decide, by decide⟩

/-- C7 (amended): `wrap_text` always returns 1 or 2 lines; an input whose
whitespace-collapsed form measures within `maxWidthPx` is returned as exactly
one line equal to that collapsed form (hence unchanged exactly when the input
is already whitespace-normalized); an empty (or all-whitespace) input yields
a single empty line. -/
theorem wrap_text_spec (wf : Char → ℕ) (maxW : ℕ) (text : List Char) :
    (1 ≤ (wrap_text wf maxW text).length ∧ (wrap_text wf maxW text).length ≤ 2) ∧
    (strW wf (joinSp (toWords text)) ≤ maxW →
      wrap_text wf maxW text = [joinSp (toWords text)]) ∧
    (toWords text = [] → wrap_text wf maxW text = [[]]) := by
  refine ⟨?_, ?_, ?_⟩
  · simp only [wrap_text]
    split
    · simp
    · split
      · simp
      · split
        · simp
        · simp
  · intro h
    have hfit : fitLine wf maxW [] (toWords text) = (joinSp (toWords text), []) := by
      have := fitLine_fits wf maxW (toWords text) [] (by simpa using h)
      simpa using this
    unfold wrap_text
    by_cases he : (toWords text).isEmpty
    · rw [if_pos he]
      have : toWords text = [] := List.isEmpty_iff.mp he
      rw [this]
      rfl
    · rw [if_neg he, hfit]
  · intro h
    unfold wrap_text
    rw [if_pos (List.isEmpty_iff.mpr h)]

/-- C7 witness: a two-word input that fits is returned as its collapsed
single line, and an all-whitespace input yields a single empty line. -/
theorem wrap_text_spec_witness :
    (strW (fun _ => 1) (joinSp (toWords ['h', 'i', ' ', 'y', 'o'])) ≤ 10 ∧
      wrap_text (fun _ => 1) 10 ['h', 'i', ' ', 'y', 'o'] =
        [joinSp (toWords ['h', 'i', ' ', 'y', 'o'])]) ∧
    (toWords ([' '] : List Char) = [] ∧ wrap_text (fun _ => 1) 10 [' '] = [[]]) :=
  ⟨⟨by decide, (wrap_text_spec (fun _ => 1) 10 ['h', 'i', ' ', 'y', 'o']).2.1 (by decide)⟩,
   ⟨by decide, (wrap_text_spec (fun _ => 1) 10 [' ']).2.2 (by decide)⟩⟩

/-- C8 (counterexample to `strictly shorter than the input`): with the
Helvetica metrics `'a' = 556`, `'@' = 1015`, `'…' = 1000` (per mille of the
font size) and `maxWidthPx = 1560`, the word `"a@"` is wider than the limit
and wraps to `"a…"` — same character count as the input: dropping `'@'` and
appending the narrower `'…'` shortens the measured width but not the string
length. -/
theorem wrap_truncation_same_length :
    1560 < strW (fun c => if c = 'a' then 556 else if c = '@' then 1015 else
      if c = ell then 1000 else 100) ['a', '@'] ∧
    wrap_text (fun c => if c = 'a' then 556 else if c = '@' then 1015 else
      if c = ell then 1000 else 100) 1560 ['a', '@'] = [['a', ell]] ∧
    ¬ (['a', ell] : List Char).length < (['a', '@'] : List Char).length := by
  refine ⟨by decide, by decide, by decide⟩

/-- C8 (amended): wrapping a single word (nonempty, whitespace-free) wider
than `maxWidthPx` yields exactly one line consisting of a kept leading
substring (strictly shorter than the word) followed by the ellipsis; the
line ends in the ellipsis and is at most as long as the input (equality is
possible when the dropped character is wider than the ellipsis, so the
original `strictly shorter than the input` holds for the kept leading
substring but not always for the whole line). -/
theorem wrap_single_long_word (wf : Char → ℕ) (maxW : ℕ) (w : List Char)
    (hne : w ≠ []) (hws : ∀ c ∈ w, isWsChar c = false)
    (hwide : maxW < strW wf w) :
    wrap_text wf maxW w = [cutWord wf maxW w ++ [ell]] ∧
    (∃ m, cutWord wf maxW w = w.take m) ∧
    (cutWord wf maxW w).length < w.length ∧
    (cutWord wf maxW w ++ [ell]).length ≤ w.length ∧
    (cutWord wf maxW w ++ [ell]).getLast? = some ell := by
  have htw : toWords w = [w] := toWords_single w hne hws
  have hlt := cutWord_length_lt wf maxW w hne hwide
  refine ⟨?_, cutWord_take wf maxW w, hlt, ?_, List.getLast?_concat _⟩
  · have hfit : fitLine wf maxW [] [w] = (cutWord wf maxW w ++ [ell], []) := by
      rw [fitLine, if_pos ⟨rfl, hwide⟩]
    simp [wrap_text, htw, hfit]
  · have : (cutWord wf maxW w ++ [ell]).length = (cutWord wf maxW w).length + 1 := by
      simp
    omega

/-- C8 witness: a four-character word of unit-width characters against a
width limit of 2 is truncated to a strictly shorter prefix plus ellipsis on
a single line. -/
theorem wrap_single_long_word_witness :
    ((['a', 'b', 'c', 'd'] : List Char) ≠ [] ∧
      (∀ c ∈ (['a', 'b', 'c', 'd'] : List Char), isWsChar c = false) ∧
      2 < strW (fun _ => 1) ['a', 'b', 'c', 'd']) ∧
    wrap_text (fun _ => 1) 2 ['a', 'b', 'c', 'd'] =
      [cutWord (fun _ => 1) 2 ['a', 'b', 'c', 'd'] ++ [ell]] :=
  ⟨⟨by decide, by decide, by decide⟩,
    (wrap_single_long_word (fun _ => 1) 2 ['a', 'b', 'c', 'd']
      (by decide) (by decide) (by decide)).1⟩

/-- C3: `round_money` and `round_money_dec` operate on the exact decimal
value of their input (via `to_decimal`, i.e. `Decimal(str(x))`, never on raw
binary floating point) and apply round-half-to-even at the second decimal
place, so `round2(2.675) = 2.68`, `round2(0.125) = 0.12` and
`round2(0.135) = 0.14`. -/
theorem round2_half_even_cases :
    round_money (.num (2675 / 1000)) = 268 / 100 ∧
    round_money_dec (.num (2675 / 1000)) = 268 / 100 ∧
    round_money (.num (125 / 1000)) = 12 / 100 ∧
    round_money_dec (.num (125 / 1000)) = 12 / 100 ∧
    round_money (.num (135 / 1000)) = 14 / 100 ∧
    round_money_dec (.num (135 / 1000)) = 14 / 100 := by
  refine ⟨?_, ?_, ?_, ?_, ?_, ?_⟩ <;>
    norm_num [round_money, round_money_dec, to_decimal, quantize2, rhe]

/-- C4: `sum_money` accumulates the exact decimal values of its inputs and
quantizes exactly once, at the end (`sum_money values =
quantize2 (Σ to_decimal values)`, with no intermediate rounding); in
particular ten copies of `0.10` sum to exactly `round2(1.00)`. -/
theorem sum_money_rounds_once :
    (∀ values : List PyVal, sum_money values = quantize2 ((values.map to_decimal).sum)) ∧
    sum_money (List.replicate 10 (.num (1 / 10))) = round_money_dec (.num 1) := by
  refine ⟨sum_money_eq, ?_⟩
  rw [sum_money_eq]
  norm_num [List.replicate, round_money_dec, to_decimal, quantize2, rhe]

/-- C9: a non-numeric input is recovered locally by `to_decimal`, which
returns `0` instead of propagating the conversion error; the rounding and
formatting helpers built on it therefore still produce a visibly-zero value
(`"0.00"`), and a bad value inside a summation contributes zero rather than
aborting the computation. -/
theorem to_decimal_invalid_is_zero (s : String) :
    to_decimal (.invalid s) = 0 ∧
    round_money (.invalid s) = 0 ∧
    round_money_dec (.invalid s) = 0 ∧
    fmt_money (.invalid s) none = "0.00" ∧
    sum_money [.num 5, .invalid s] = 5 := by
  refine ⟨rfl, ?_, ?_, ?_, ?_⟩
  · norm_num [round_money, to_decimal, quantize2, rhe]
  · norm_num [round_money_dec, to_decimal, quantize2, rhe]
  · norm_num [fmt_money, round_money_dec, to_decimal, fmtFixed2, quantize2, rhe]; rfl
  · norm_num [sum_money, to_decimal, quantize2, rhe]

/-- C10: rounding to two decimals is idempotent — feeding the result of
`round_money_dec` (or `round_money`) back through the function returns it
unchanged. -/
theorem round2_idempotent (x : PyVal) :
    round_money_dec (.num (round_money_dec x)) = round_money_dec x ∧
    round_money (.num (round_money x)) = round_money x := by
  constructor <;> simp [round_money, round_money_dec, to_decimal, quantize2_idem]

end KMC
